import Mathlib

/-!
Shallow embedding of the campaign dispatch engine of the WhatsApp bulk
sender (src/server.js) and proofs about the behaviour its specification
claims.

The persistent sqlite tables (contacts, campaigns, messages) are modelled
as lists of records inside a `Db` structure; each route handler and the
cron tick become functions from `Db` to `Db` (plus a response value).
SQL timestamps (CURRENT_TIMESTAMP) are abstracted as a `now : Nat`
argument.  The WhatsApp transport is abstracted as an oracle
`Nat → ChannelStep` giving, for the i-th message attempt of a dispatch
run, the value of the global isClientReady flag and the outcome of the
channel interaction (media fetch / sendMessage), mirroring section 6 of
the specification (the MessageChannel capability).
-/

namespace WASender

/-- Campaign status values stored in campaigns.status
    (default "draft", set by the routes and the cron tick). -/
inductive CStatus where
  | draft
  | scheduled
  | running
  | completed
  | paused
deriving DecidableEq, Repr

/-- Message status values stored in messages.status
    (default "pending", updated by sendBulkMessages). -/
inductive MStatus where
  | pending
  | sent
  | failed
deriving DecidableEq, Repr

/-- A row of the contacts table.  TEXT columns are nullable, hence
    `Option String`. -/
structure Contact where
  id : Nat
  name : Option String
  phone : Option String
  email : Option String
  tags : Option String
  customFields : Option String
deriving DecidableEq, Repr

/-- A row of the campaigns table. -/
structure Campaign where
  id : Nat
  name : String
  message : String
  mediaUrl : Option String
  mediaType : Option String
  status : CStatus
  scheduledAt : Option Nat
  completedAt : Option Nat
deriving DecidableEq, Repr

/-- A row of the messages table (delivered_at and read_at are never
    written by the engine and are omitted). -/
structure Message where
  id : Nat
  campaignId : Nat
  contactId : Nat
  phone : Option String
  message : String
  status : MStatus
  sentAt : Option Nat
  error : Option String
deriving DecidableEq, Repr

/-- The sqlite database: the three tables the engine touches, plus the
    AUTOINCREMENT counters for campaigns.id and messages.id. -/
structure Db where
  contacts : List Contact
  campaigns : List Campaign
  messages : List Message
  nextCampaignId : Nat
  nextMessageId : Nat
deriving DecidableEq, Repr

/-! ## Character and substring utilities

`msg.phone.replace(/\D/g, '')` removes every non-digit character, and
`formattedPhone.includes('@c.us')` is a literal substring test.  Both are
modelled over `List Char`. -/

/-- `startsWithL pat t`: `pat` is a prefix of `t`. -/
def startsWithL : List Char → List Char → Bool
  | [], _ => true
  | _ :: _, [] => false
  | p :: ps, c :: cs => p == c && startsWithL ps cs

/-- `containsSubL pat t`: `pat` occurs as a contiguous substring of `t`
    (the semantics of JavaScript String.prototype.includes). -/
def containsSubL (pat : List Char) : List Char → Bool
  | [] => startsWithL pat []
  | c :: rest => startsWithL pat (c :: rest) || containsSubL pat rest

/-- `phone.replace(/\D/g, '')` (src/server.js line 199): keep only the
    ASCII digits. -/
def stripNonDigits (l : List Char) : List Char :=
  l.filter Char.isDigit

/-- Lines 199-202 of src/server.js (also 642-645, 672-675): strip
    non-digits, then append "@c.us" unless the string already contains
    it. -/
def formattedPhone (p : String) : String :=
  let digits : String := ⟨stripNonDigits p.toList⟩
  if containsSubL "@c.us".toList digits.toList then digits
  else digits ++ "@c.us"

/-! ## JavaScript string replacement

`message.replace(/\{name\}/g, v)` (src/server.js lines 450-453) performs
a global, left-to-right, non-overlapping replacement of the literal
pattern, where the replacement string `v` is processed by the
ECMAScript GetSubstitution algorithm: "$$" yields "$", "$&" the matched
substring, a dollar followed by the backquote character the part of the
original string before the match, a dollar followed by the apostrophe
character the part after the match; with no capture groups in the
pattern every other dollar sequence is kept literally.  A null field
value is stringified to "null" before replacement. -/

def dollarC : Char := '$'
def ampC : Char := '&'
def backqC : Char := Char.ofNat 96
def squoteC : Char := Char.ofNat 39

/-- ECMAScript GetSubstitution for a pattern with no capture groups:
    `matched` is the matched substring, `pre` the part of the original
    string before the match, `post` the part after it. -/
def jsGetSubstitution (matched pre post : List Char) : List Char → List Char
  | [] => []
  | c :: rest =>
    if c = dollarC then
      match rest with
      | [] => [c]
      | d :: rest2 =>
        if d = dollarC then dollarC :: jsGetSubstitution matched pre post rest2
        else if d = ampC then matched ++ jsGetSubstitution matched pre post rest2
        else if d = backqC then pre ++ jsGetSubstitution matched pre post rest2
        else if d = squoteC then post ++ jsGetSubstitution matched pre post rest2
        else c :: jsGetSubstitution matched pre post (d :: rest2)
    else c :: jsGetSubstitution matched pre post rest

/-- Fuelled worker for the global literal replacement: scans the text
    left to right; on a match emits the substitution and continues after
    the match (the replacement output is never rescanned).  `pre`
    accumulates the consumed part of the original string, needed by the
    substitution patterns.  Each step consumes at least one character,
    so fuel equal to the text length is enough; the fuel-exhausted case
    is unreachable then. -/
def jsReplaceF (pat repl : List Char) : Nat → List Char → List Char → List Char
  | 0, _, t => t
  | fuel + 1, pre, t =>
    match t with
    | [] => []
    | c :: rest =>
      if !pat.isEmpty && startsWithL pat (c :: rest) then
        let post := List.drop pat.length (c :: rest)
        jsGetSubstitution pat pre post repl ++ jsReplaceF pat repl fuel (pre ++ pat) post
      else
        c :: jsReplaceF pat repl fuel (pre ++ [c]) rest

/-- `s.replace(new RegExp(escaped pat, "g"), repl)` for a literal
    pattern `pat` and a string replacement `repl`. -/
def jsReplace (s pat repl : String) : String :=
  ⟨jsReplaceF pat.toList repl.toList s.toList.length [] s.toList⟩

/-- JavaScript stringification of a possibly-null TEXT column used as a
    replacement value: null becomes the string "null". -/
def jsField : Option String → String
  | some v => v
  | none => "null"

/-- Lines 450-453 of src/server.js: the personalized message body built
    at campaign creation, replacing the three placeholders in order. -/
def personalizedMessage (message : String) (c : Contact) : String :=
  jsReplace (jsReplace (jsReplace message "{name}" (jsField c.name))
      "{phone}" (jsField c.phone))
    "{email}" (jsField c.email)

/-! ## Route handlers and the dispatcher

Database statement errors (disk faults) are outside the model, so the
modelled handlers never take the `err` branches of the sqlite callbacks;
the one statement-level error the engine can actually trigger — the
empty `IN ()` clause in campaign creation — is modelled explicitly. -/

/-- The HTTP response of the campaign routes: they answer
    `{success: true}` unless a database statement fails. -/
inductive Resp where
  | success
  | apiError (e : String)
deriving DecidableEq, Repr

/-- The outcome of a dispatch run,
    `resolve({ sent, failed, total })` (line 256). -/
structure DispatchResult where
  sent : Nat
  failed : Nat
  total : Nat
deriving DecidableEq, Repr

/-- One step of the transport oracle: the value of the global
    isClientReady flag when the i-th attempt starts, and the outcome of
    the channel interaction (MessageMedia.fromUrl / client.sendMessage)
    should the attempt reach it. -/
structure ChannelStep where
  ready : Bool
  sendResult : Except String Unit
deriving Repr

/-- `UPDATE campaigns SET status = ? WHERE id = ?`. -/
def setCampaignStatus (db : Db) (cid : Nat) (st : CStatus) : Db :=
  { db with campaigns :=
      db.campaigns.map fun c => if c.id = cid then { c with status := st } else c }

/-- Lines 493-505: the pause route,
    `UPDATE campaigns SET status = 'paused' WHERE id = ?`, then
    `{success: true}`.  No existence or state check is performed. -/
def pauseRoute (db : Db) (cid : Nat) : Resp × Db :=
  (Resp.success, setCampaignStatus db cid CStatus.paused)

/-- Lines 470-472: the unconditional
    `UPDATE campaigns SET status = 'running' WHERE id = ?` run by the
    start route before dispatching.  No existence or state check. -/
def startUpdate (db : Db) (cid : Nat) : Db :=
  setCampaignStatus db cid CStatus.running

/-- `UPDATE messages SET status = 'sent', sent_at = CURRENT_TIMESTAMP
    WHERE id = ?` (lines 223-226). -/
def markSent (db : Db) (mid now : Nat) : Db :=
  { db with messages := db.messages.map fun m =>
      if m.id = mid then { m with status := MStatus.sent, sentAt := some now } else m }

/-- `UPDATE messages SET status = 'failed', error = ? WHERE id = ?`
    (lines 242-245). -/
def markFailed (db : Db) (mid : Nat) (e : String) : Db :=
  { db with messages := db.messages.map fun m =>
      if m.id = mid then { m with status := MStatus.failed, error := some e } else m }

/-- `UPDATE campaigns SET status = 'completed',
    completed_at = CURRENT_TIMESTAMP WHERE id = ?` (lines 251-254). -/
def completeCampaign (db : Db) (cid now : Nat) : Db :=
  { db with campaigns := db.campaigns.map fun c =>
      if c.id = cid then { c with status := CStatus.completed, completedAt := some now } else c }

/-- The SELECT at lines 179-183: all messages of the campaign whose
    status is still "pending", in insertion (rowid) order.  The LEFT
    JOIN only adds the contact name, which the loop never uses. -/
def pendingSnapshot (db : Db) (cid : Nat) : List Message :=
  db.messages.filter fun m => decide (m.campaignId = cid ∧ m.status = MStatus.pending)

/-- One iteration body of the for-loop (lines 194-247) up to the status
    update: checks isClientReady, formats the phone (a null phone makes
    `msg.phone.replace` raise), re-reads the campaign row (a deleted
    campaign makes `campaign.media_url` raise), then performs the
    channel interaction, whose outcome the oracle step decides for both
    the media and the plain-text branch.  Returns the outcome (the
    error value is what the catch block writes into the error column)
    and, when the attempt reaches the channel, the address handed to
    client.sendMessage. -/
def attemptMessage (step : ChannelStep) (db : Db) (cid : Nat) (m : Message) :
    Except String Unit × Option String :=
  if step.ready = false then (Except.error "WhatsApp client not ready", none)
  else
    match m.phone with
    | none => (Except.error "TypeError: msg.phone is null", none)
    | some p =>
      let addr := formattedPhone p
      match db.campaigns.find? (fun c => decide (c.id = cid)) with
      | none => (Except.error "TypeError: campaign row missing", none)
      | some _ => (step.sendResult, some addr)

/-- Running state of a dispatch pass: the database plus the `sent` and
    `failed` counters of sendBulkMessages, and the (ghost) list of
    addresses handed to the channel. -/
structure LoopState where
  db : Db
  sent : Nat
  failed : Nat
  log : List String
deriving DecidableEq, Repr

/-- One iteration of the for-loop of sendBulkMessages (lines 193-248):
    attempt the message, update its row and the counters, and then —
    the loop itself never reads campaigns.status — possibly let an
    external pause request (the pause route handler) run at the
    per-message await boundary; `pauseAfter i` says whether one arrives
    after the i-th attempt.  This is the only interleaving the claims
    exercise; `fun _ => false` is a run with no concurrent pause. -/
def dispatchStep (env : Nat → ChannelStep) (cid now : Nat) (pauseAfter : Nat → Bool)
    (m : Message) (i : Nat) (st : LoopState) : LoopState :=
  let r := attemptMessage (env i) st.db cid m
  let log1 := st.log ++ r.2.toList
  let st1 : LoopState :=
    match r.1 with
    | Except.ok _ => ⟨markSent st.db m.id now, st.sent + 1, st.failed, log1⟩
    | Except.error e => ⟨markFailed st.db m.id e, st.sent, st.failed + 1, log1⟩
  if pauseAfter i then { st1 with db := (pauseRoute st1.db cid).2 } else st1

/-- The for-loop of sendBulkMessages over the pending snapshot; `i`
    numbers the attempts, feeding the oracle and the pause schedule. -/
def dispatchLoop (env : Nat → ChannelStep) (cid now : Nat) (pauseAfter : Nat → Bool) :
    List Message → Nat → LoopState → LoopState
  | [], _, st => st
  | m :: rest, i, st =>
    dispatchLoop env cid now pauseAfter rest (i + 1)
      (dispatchStep env cid now pauseAfter m i st)

/-- sendBulkMessages (lines 177-260) with the pause-interleaving hook:
    fetch the pending snapshot, walk it, then unconditionally mark the
    campaign completed and resolve the counters. -/
def sendBulkWith (env : Nat → ChannelStep) (cid now : Nat) (pauseAfter : Nat → Bool)
    (db : Db) : Db × DispatchResult :=
  let pend := pendingSnapshot db cid
  let st := dispatchLoop env cid now pauseAfter pend 0 ⟨db, 0, 0, []⟩
  (completeCampaign st.db cid now, ⟨st.sent, st.failed, pend.length⟩)

/-- sendBulkMessages with no concurrent pause request. -/
def sendBulkMessages (env : Nat → ChannelStep) (cid now : Nat) (db : Db) :
    Db × DispatchResult :=
  sendBulkWith env cid now (fun _ => false) db

/-- Lines 467-490: the start route.  It runs the unconditional status
    update, answers `{success: true}`, and then dispatches in the
    background.  There is no NotFound or InvalidState branch. -/
def startRoute (env : Nat → ChannelStep) (now : Nat) (db : Db) (cid : Nat) : Resp × Db :=
  let db1 := startUpdate db cid
  (Resp.success, (sendBulkMessages env cid now db1).1)

/-- Builds the message rows inserted by the prepared statement at lines
    434-456: one per selected contact, AUTOINCREMENT ids from `startId`,
    snapshotted phone, personalized body, status "pending". -/
def mkMessages (startId cid : Nat) (tmpl : String) : List Contact → List Message
  | [] => []
  | c :: rest =>
    { id := startId, campaignId := cid, contactId := c.id, phone := c.phone,
      message := personalizedMessage tmpl c, status := MStatus.pending,
      sentAt := none, error := none } :: mkMessages (startId + 1) cid tmpl rest

/-- `SELECT * FROM contacts WHERE id IN (...)` (line 440): table order,
    one row per matching contact. -/
def selectedContacts (db : Db) (ids : List Nat) : List Contact :=
  db.contacts.filter fun c => decide (c.id ∈ ids)

/-- sqlite refuses an empty IN list, so `contactIds.join(',') = ""`
    turns line 440 into `... WHERE id IN ()`, a statement syntax error;
    the exact message text is immaterial to the claims. -/
def emptyInClauseError : String := "SQLITE_ERROR: near \")\": syntax error"

/-- Lines 415-464: the campaign creation route.  The campaign row is
    inserted first (status "scheduled" when a schedule is supplied,
    otherwise "draft"); only then are the contacts selected and the
    message rows inserted.  With an empty contact list the SELECT fails
    and the handler answers 500 — after the campaign row is already
    committed. -/
def createCampaign (db : Db) (name message : String) (contactIds : List Nat)
    (scheduledAt : Option Nat) (mediaUrl mediaType : Option String) :
    Except String Nat × Db :=
  let cid := db.nextCampaignId
  let camp : Campaign :=
    { id := cid, name := name, message := message, mediaUrl := mediaUrl,
      mediaType := mediaType,
      status := if scheduledAt.isSome then CStatus.scheduled else CStatus.draft,
      scheduledAt := scheduledAt, completedAt := none }
  let db1 : Db := { db with campaigns := db.campaigns ++ [camp], nextCampaignId := cid + 1 }
  if contactIds.isEmpty then
    (Except.error emptyInClauseError, db1)
  else
    let rows := selectedContacts db1 contactIds
    let msgs := mkMessages db1.nextMessageId cid message rows
    (Except.ok cid,
     { db1 with messages := db1.messages ++ msgs,
                nextMessageId := db1.nextMessageId + msgs.length })

/-- The SELECT of the cron tick (lines 594-598): campaigns whose status
    is "scheduled" and whose scheduled time has arrived.  A NULL
    scheduled_at never compares true. -/
def schedulerSelect (db : Db) (now : Nat) : List Campaign :=
  db.campaigns.filter fun c =>
    decide (c.status = CStatus.scheduled) &&
      (match c.scheduledAt with
       | some t => decide (t ≤ now)
       | none => false)

/-- The body of the cron callback (lines 605-617) applied to an
    already-received selection: for each selected campaign,
    unconditionally set status "running" and hand the campaign to
    sendBulkMessages.  There is no re-check of the status between the
    SELECT and the hand-off.  Returns the ids handed to the dispatcher.
    The selection is a separate argument because the callback runs
    asynchronously: other handlers may run between the SELECT and the
    loop. -/
def schedulerTickProcess (env : Nat → ChannelStep) (now : Nat) :
    List Campaign → Db → List Nat × Db
  | [], db => ([], db)
  | c :: rest, db =>
    let db1 := setCampaignStatus db c.id CStatus.running
    let db2 := (sendBulkMessages env c.id now db1).1
    (c.id :: (schedulerTickProcess env now rest db2).1,
     (schedulerTickProcess env now rest db2).2)

/-- One cron tick (lines 593-620) with nothing interleaved between the
    SELECT and its callback. -/
def schedulerTick (env : Nat → ChannelStep) (now : Nat) (db : Db) : List Nat × Db :=
  schedulerTickProcess env now (schedulerSelect db now) db

/-- The operations of the engine that touch message rows, for the
    status-transition invariant. -/
inductive Op where
  | create (name message : String) (contactIds : List Nat)
      (scheduledAt : Option Nat) (mediaUrl mediaType : Option String)
  | start (cid : Nat)
  | pause (cid : Nat)
  | dispatch (cid : Nat)
  | tick
deriving Repr

/-- Applying one engine operation to the database. -/
def applyOp (env : Nat → ChannelStep) (now : Nat) : Op → Db → Db
  | Op.create n m ids sch mu mt, db => (createCampaign db n m ids sch mu mt).2
  | Op.start cid, db => (startRoute env now db cid).2
  | Op.pause cid, db => (pauseRoute db cid).2
  | Op.dispatch cid, db => (sendBulkMessages env cid now db).1
  | Op.tick, db => (schedulerTick env now db).2

/-- Well-formedness of the messages table: AUTOINCREMENT ids are
    distinct and below the next id. -/
def Db.msgWf (db : Db) : Prop :=
  (db.messages.map fun m => m.id).Nodup ∧ ∀ m ∈ db.messages, m.id < db.nextMessageId

instance (db : Db) : Decidable db.msgWf := by
  unfold Db.msgWf; infer_instance

/-! ## Reference definitions taken from the specification wording

The spec says "Substitution is literal text replacement; unresolved
placeholders (contact field absent) are left as empty string".  The
following definitions follow those words (not the code) and exist to be
compared with `personalizedMessage`. -/

/-- Modelled from the spec: plain literal global replacement — the
    replacement string is spliced in verbatim, with no replacement
    patterns.  Same fuelled scan as `jsReplaceF`. -/
def litReplaceF (pat repl : List Char) : Nat → List Char → List Char
  | 0, t => t
  | fuel + 1, t =>
    match t with
    | [] => []
    | c :: rest =>
      if !pat.isEmpty && startsWithL pat (c :: rest) then
        repl ++ litReplaceF pat repl fuel (List.drop pat.length (c :: rest))
      else
        c :: litReplaceF pat repl fuel rest

/-- Modelled from the spec: literal global replacement on strings. -/
def litReplace (s pat repl : String) : String :=
  ⟨litReplaceF pat.toList repl.toList s.toList.length s.toList⟩

/-- Modelled from the spec: the substitution claim C5 describes — each
    placeholder replaced literally by the field value, an absent field
    by the empty string. -/
def specPersonalizeEmpty (message : String) (c : Contact) : String :=
  litReplace (litReplace (litReplace message "{name}" (c.name.getD ""))
      "{phone}" (c.phone.getD ""))
    "{email}" (c.email.getD "")

/-- The amended reference substitution: literal replacement, with an
    absent field stringified to "null" the way JavaScript does. -/
def specPersonalizeNull (message : String) (c : Contact) : String :=
  litReplace (litReplace (litReplace message "{name}" (jsField c.name))
      "{phone}" (jsField c.phone))
    "{email}" (jsField c.email)

/-- The addresses a dispatch run hands to client.sendMessage. -/
def dispatchLog (env : Nat → ChannelStep) (cid now : Nat) (pauseAfter : Nat → Bool)
    (db : Db) : List String :=
  (dispatchLoop env cid now pauseAfter (pendingSnapshot db cid) 0 ⟨db, 0, 0, []⟩).log

/-- Every campaign column except status and completed_at — the part of
    a campaign row that a dispatch pass (including interleaved pause
    requests) never writes. -/
def campaignCore (c : Campaign) :
    Nat × String × String × Option String × Option String × Option Nat :=
  (c.id, c.name, c.message, c.mediaUrl, c.mediaType, c.scheduledAt)

/-! ## Concrete fixtures for witnesses and counterexamples -/

/-- A transport oracle that is always ready and always delivers. -/
def envReady : Nat → ChannelStep := fun _ => ⟨true, Except.ok ()⟩

/-- A transport oracle that is never ready. -/
def envDown : Nat → ChannelStep := fun _ => ⟨false, Except.ok ()⟩

/-- One campaign, already "running", no messages. -/
def dbRunningOnly : Db :=
  ⟨[], [⟨1, "c", "hello", none, none, CStatus.running, none, none⟩], [], 2, 1⟩

/-- One due "scheduled" campaign with one pending message. -/
def dbSched : Db :=
  ⟨[⟨1, some "A", some "+15551", none, none, none⟩],
   [⟨1, "c", "hello", none, none, CStatus.scheduled, some 0, none⟩],
   [⟨1, 1, 1, some "+15551", "hello", MStatus.pending, none, none⟩], 2, 2⟩

/-- One "running" campaign with two pending messages. -/
def dbTwoPending : Db :=
  ⟨[], [⟨1, "c", "hello", none, none, CStatus.running, none, none⟩],
   [⟨1, 1, 1, some "+10", "hello", MStatus.pending, none, none⟩,
    ⟨2, 1, 2, some "+20", "hello", MStatus.pending, none, none⟩], 2, 3⟩

/-- A contact with no email address. -/
def contactA : Contact := ⟨1, some "A", some "+1", none, none, none⟩

/-- A contact whose populated name field is itself the placeholder
    token. -/
def dbTokenName : Db :=
  ⟨[⟨1, some "{name}", some "+1", none, none, none⟩], [], [], 1, 1⟩

/-- The two contacts of the spec scenario. -/
def dbAnaLeo : Db :=
  ⟨[⟨1, some "Ana", some "+1555", none, none, none⟩,
    ⟨2, some "Leo", some "+1556", none, none, none⟩], [], [], 1, 1⟩

/-- One campaign with one already-sent message. -/
def dbOneSent : Db :=
  ⟨[], [⟨1, "c", "hello", none, none, CStatus.running, none, none⟩],
   [⟨1, 1, 1, some "+1", "hello", MStatus.sent, some 0, none⟩], 2, 2⟩

/-- The empty database. -/
def dbEmpty : Db := ⟨[], [], [], 1, 1⟩

/-- One "running" campaign with one pending message whose stored phone
    contains non-digit characters. -/
def dbOnePending : Db :=
  ⟨[⟨1, some "A", some "+1 5", none, none, none⟩],
   [⟨1, "c", "hello", none, none, CStatus.running, none, none⟩],
   [⟨1, 1, 1, some "+1 5", "hello", MStatus.pending, none, none⟩], 2, 2⟩

/-! ## Phone-formatting lemmas -/

theorem startsWith_atcus_false (c : Char) (cs : List Char) (hc : c.isDigit = true) :
    startsWithL "@c.us".toList (c :: cs) = false := by
  have h1 : "@c.us".toList = '@' :: 'c' :: '.' :: 'u' :: 's' :: [] := rfl
  rw [h1]
  show ('@' == c && startsWithL ['c', '.', 'u', 's'] cs) = false
  have hne : ('@' == c) = false := by
    cases hbe : ('@' == c) with
    | false => rfl
    | true =>
      exfalso
      have he : '@' = c := eq_of_beq hbe
      rw [← he] at hc
      exact absurd hc (by decide)
  rw [hne]
  rfl

theorem containsSub_atcus_digits :
    ∀ l : List Char, (∀ c ∈ l, c.isDigit = true) →
      containsSubL "@c.us".toList l = false := by
  intro l
  induction l with
  | nil => intro _; rfl
  | cons c cs ih =>
    intro h
    show (startsWithL "@c.us".toList (c :: cs) || containsSubL "@c.us".toList cs) = false
    rw [startsWith_atcus_false c cs (h c (List.mem_cons_self c cs)),
      ih (fun x hx => h x (List.mem_cons_of_mem c hx))]
    rfl

theorem formattedPhone_spec (p : String) :
    containsSubL "@c.us".toList (stripNonDigits p.toList) = false ∧
    formattedPhone p = String.mk (stripNonDigits p.toList) ++ "@c.us" := by
  have hd : ∀ c ∈ stripNonDigits p.toList, c.isDigit = true := by
    intro c hc
    exact List.of_mem_filter hc
  have h1 := containsSub_atcus_digits _ hd
  refine ⟨h1, ?_⟩
  unfold formattedPhone
  simp only []
  rw [show (String.mk (stripNonDigits p.toList)).toList = stripNonDigits p.toList from rfl]
  rw [h1]
  rfl

/-! ## Replacement-string lemmas -/

theorem jsGetSubstitution_no_dollar (matched pre post : List Char) :
    ∀ repl : List Char, dollarC ∉ repl →
      jsGetSubstitution matched pre post repl = repl := by
  intro repl
  induction repl with
  | nil => intro _; rfl
  | cons c rest ih =>
    intro h
    have hc : ¬ c = dollarC := fun he => h (by rw [he]; exact List.mem_cons_self _ _)
    rw [jsGetSubstitution.eq_def]
    dsimp only
    rw [if_neg hc, ih (fun hx => h (List.mem_cons_of_mem _ hx))]

theorem jsReplaceF_no_dollar (pat repl : List Char) (h : dollarC ∉ repl) :
    ∀ fuel pre t, jsReplaceF pat repl fuel pre t = litReplaceF pat repl fuel t := by
  intro fuel
  induction fuel with
  | zero => intro pre t; rfl
  | succ n ih =>
    intro pre t
    cases t with
    | nil => rfl
    | cons c rest =>
      simp only [jsReplaceF, litReplaceF]
      cases hb : (!pat.isEmpty && startsWithL pat (c :: rest)) with
      | false => simp only [hb, if_neg, Bool.false_eq_true, ite_false, ih]
      | true =>
        simp only [hb, ite_true, ih]
        rw [jsGetSubstitution_no_dollar _ _ _ _ h]

theorem jsReplace_no_dollar (s pat repl : String) (h : dollarC ∉ repl.toList) :
    jsReplace s pat repl = litReplace s pat repl :=
  congrArg String.mk (jsReplaceF_no_dollar pat.toList repl.toList h _ _ _)

/-- C5 (amended): campaign-creation substitution replaces each
    placeholder through JavaScript replacement semantics; whenever the
    substituted values contain no dollar character this coincides with
    literal text replacement, and an absent (null) contact field is
    substituted as the literal text "null" — never as the empty
    string. -/
theorem c5_substitution_amended (tmpl : String) (c : Contact)
    (hn : dollarC ∉ (jsField c.name).toList)
    (hp : dollarC ∉ (jsField c.phone).toList)
    (he : dollarC ∉ (jsField c.email).toList) :
    personalizedMessage tmpl c = specPersonalizeNull tmpl c := by
  unfold personalizedMessage specPersonalizeNull
  rw [jsReplace_no_dollar _ _ _ hn, jsReplace_no_dollar _ _ _ hp,
    jsReplace_no_dollar _ _ _ he]

/-- C5 witness: the amended theorem applied to a concrete template and
    contact. -/
theorem c5_witness :
    personalizedMessage "Hi {name} {email}" contactA =
      specPersonalizeNull "Hi {name} {email}" contactA :=
  c5_substitution_amended "Hi {name} {email}" contactA (by decide) (by decide) (by decide)

/-- C5 counterexample: for a contact whose email is absent, the code
    substitutes "{email}" with the literal text "null", while the claim
    demands the empty string. -/
theorem c5_counterexample :
    personalizedMessage "{email}" contactA = "null" ∧
    specPersonalizeEmpty "{email}" contactA = "" ∧
    ("null" : String) ≠ "" :=
  ⟨by decide, by decide, by decide⟩

/-! ## Dispatch log lemmas (claim C10) -/

theorem attemptMessage_addr (step : ChannelStep) (db : Db) (cid : Nat) (m : Message)
    (a : String) (h : (attemptMessage step db cid m).2 = some a) :
    ∃ p : String, m.phone = some p ∧ a = formattedPhone p := by
  unfold attemptMessage at h
  split at h
  · exact absurd h (by simp)
  · split at h
    · exact absurd h (by simp)
    · rename_i p heq
      split at h
      · exact absurd h (by simp)
      · refine ⟨p, heq, ?_⟩
        simpa using h.symm

theorem dispatchStep_log (env : Nat → ChannelStep) (cid now : Nat) (pa : Nat → Bool)
    (m : Message) (i : Nat) (st : LoopState) (a : String)
    (ha : a ∈ (dispatchStep env cid now pa m i st).log) :
    a ∈ st.log ∨ (attemptMessage (env i) st.db cid m).2 = some a := by
  unfold dispatchStep at ha
  have ha2 : a ∈ st.log ++ (attemptMessage (env i) st.db cid m).2.toList := by
    cases hr : (attemptMessage (env i) st.db cid m).1 with
    | ok u =>
      cases hpa : pa i with
      | false => simpa [hr, hpa] using ha
      | true => simpa [hr, hpa] using ha
    | error e =>
      cases hpa : pa i with
      | false => simpa [hr, hpa] using ha
      | true => simpa [hr, hpa] using ha
  rcases List.mem_append.mp ha2 with h | h
  · exact Or.inl h
  · right
    cases hopt : (attemptMessage (env i) st.db cid m).2 with
    | none => rw [hopt] at h; exact absurd h (by simp)
    | some b =>
      rw [hopt] at h
      have hab : a = b := by simpa using h
      rw [hab]

theorem dispatchLoop_log (env : Nat → ChannelStep) (cid now : Nat) (pa : Nat → Bool) :
    ∀ (l : List Message) (i : Nat) (st : LoopState) (a : String),
      a ∈ (dispatchLoop env cid now pa l i st).log →
      a ∈ st.log ∨ ∃ p : String, a = formattedPhone p := by
  intro l
  induction l with
  | nil => intro i st a ha; exact Or.inl ha
  | cons m rest ih =>
    intro i st a ha
    rw [dispatchLoop] at ha
    rcases ih _ _ a ha with hmem | hfound
    · rcases dispatchStep_log env cid now pa m i st a hmem with h | h
      · exact Or.inl h
      · obtain ⟨p, _, hpf⟩ := attemptMessage_addr _ _ _ _ a h
        exact Or.inr ⟨p, hpf⟩
    · exact Or.inr hfound

/-- C10: every recipient address a dispatch run hands to the channel
    send equals the message's stored phone number with every non-digit
    removed, followed by "@c.us"; a digits-only string can never
    contain "@c.us", so the includes-guard never fires and the suffix
    is appended on every attempt. -/
theorem c10_address_format (env : Nat → ChannelStep) (cid now : Nat)
    (pa : Nat → Bool) (db : Db) (a : String)
    (ha : a ∈ dispatchLog env cid now pa db) :
    (∃ p : String, a = String.mk (stripNonDigits p.toList) ++ "@c.us") ∧
    ∀ q : String, containsSubL "@c.us".toList (stripNonDigits q.toList) = false ∧
      formattedPhone q = String.mk (stripNonDigits q.toList) ++ "@c.us" := by
  constructor
  · have h := dispatchLoop_log env cid now pa (pendingSnapshot db cid) 0 ⟨db, 0, 0, []⟩ a ha
    rcases h with h | ⟨p, rfl⟩
    · exact absurd h (List.not_mem_nil a)
    · exact ⟨p, (formattedPhone_spec p).2⟩
  · intro q
    exact formattedPhone_spec q

/-! ## Update and loop lemmas -/

theorem mem_map_of_fixed {α : Type} (f : α → α) {l : List α} {x : α}
    (hx : x ∈ l) (hfx : f x = x) : x ∈ l.map f :=
  hfx ▸ List.mem_map_of_mem f hx

theorem map_comp_of_pointwise {α β : Type} (l : List α) (f : α → α) (g : α → β)
    (h : ∀ x, g (f x) = g x) : (l.map f).map g = l.map g := by
  rw [List.map_map]
  exact List.map_congr_left (fun x _ => h x)

theorem markSent_campaigns (db : Db) (mid now : Nat) :
    (markSent db mid now).campaigns = db.campaigns := rfl

theorem markFailed_campaigns (db : Db) (mid : Nat) (e : String) :
    (markFailed db mid e).campaigns = db.campaigns := rfl

theorem setCampaignStatus_messages (db : Db) (cid : Nat) (stt : CStatus) :
    (setCampaignStatus db cid stt).messages = db.messages := rfl

theorem completeCampaign_messages (db : Db) (cid now : Nat) :
    (completeCampaign db cid now).messages = db.messages := rfl

theorem markSent_msgIds (db : Db) (mid now : Nat) :
    (markSent db mid now).messages.map (fun x => x.id) =
      db.messages.map (fun x => x.id) := by
  unfold markSent
  exact map_comp_of_pointwise _ _ _ (fun m => by by_cases h : m.id = mid <;> simp [h])

theorem markFailed_msgIds (db : Db) (mid : Nat) (e : String) :
    (markFailed db mid e).messages.map (fun x => x.id) =
      db.messages.map (fun x => x.id) := by
  unfold markFailed
  exact map_comp_of_pointwise _ _ _ (fun m => by by_cases h : m.id = mid <;> simp [h])

theorem markSent_mem_of_ne (db : Db) (mid now : Nat) {m : Message}
    (hm : m ∈ db.messages) (hne : m.id ≠ mid) : m ∈ (markSent db mid now).messages := by
  unfold markSent
  exact mem_map_of_fixed _ hm (by simp [hne])

theorem markFailed_mem_of_ne (db : Db) (mid : Nat) (e : String) {m : Message}
    (hm : m ∈ db.messages) (hne : m.id ≠ mid) : m ∈ (markFailed db mid e).messages := by
  unfold markFailed
  exact mem_map_of_fixed _ hm (by simp [hne])

theorem markSent_mem_self (db : Db) (now : Nat) {m : Message} (hm : m ∈ db.messages) :
    { m with status := MStatus.sent, sentAt := some now } ∈ (markSent db m.id now).messages := by
  unfold markSent
  have h := List.mem_map_of_mem
      (fun x => if x.id = m.id then { x with status := MStatus.sent, sentAt := some now } else x) hm
  simpa using h

theorem markFailed_mem_self (db : Db) (e : String) {m : Message} (hm : m ∈ db.messages) :
    { m with status := MStatus.failed, error := some e } ∈ (markFailed db m.id e).messages := by
  unfold markFailed
  have h := List.mem_map_of_mem
      (fun x => if x.id = m.id then { x with status := MStatus.failed, error := some e } else x) hm
  simpa using h

theorem setCampaignStatus_core (db : Db) (cid : Nat) (stt : CStatus) :
    (setCampaignStatus db cid stt).campaigns.map campaignCore =
      db.campaigns.map campaignCore := by
  unfold setCampaignStatus
  exact map_comp_of_pointwise _ _ _
    (fun c => by by_cases h : c.id = cid <;> simp [campaignCore, h])

theorem completeCampaign_mem (db : Db) (cid now : Nat) {c : Campaign}
    (hc : c ∈ db.campaigns) (hid : c.id = cid) :
    { c with status := CStatus.completed, completedAt := some now } ∈
      (completeCampaign db cid now).campaigns := by
  unfold completeCampaign
  have h := List.mem_map_of_mem
      (fun x => if x.id = cid then
        { x with status := CStatus.completed, completedAt := some now } else x) hc
  simpa [hid] using h

theorem dispatchStep_counts (env : Nat → ChannelStep) (cid now : Nat) (pa : Nat → Bool)
    (m : Message) (i : Nat) (st : LoopState) :
    (dispatchStep env cid now pa m i st).sent + (dispatchStep env cid now pa m i st).failed =
      st.sent + st.failed + 1 := by
  unfold dispatchStep
  cases hr : (attemptMessage (env i) st.db cid m).1 <;> cases hpa : pa i <;>
    simp [hr, hpa] <;> omega

theorem dispatchStep_msgIds (env : Nat → ChannelStep) (cid now : Nat) (pa : Nat → Bool)
    (m : Message) (i : Nat) (st : LoopState) :
    (dispatchStep env cid now pa m i st).db.messages.map (fun x => x.id) =
      st.db.messages.map (fun x => x.id) := by
  unfold dispatchStep
  cases hr : (attemptMessage (env i) st.db cid m).1 <;> cases hpa : pa i <;>
    simp [hr, hpa, pauseRoute, setCampaignStatus_messages, markSent_msgIds, markFailed_msgIds]

theorem dispatchStep_core (env : Nat → ChannelStep) (cid now : Nat) (pa : Nat → Bool)
    (m : Message) (i : Nat) (st : LoopState) :
    (dispatchStep env cid now pa m i st).db.campaigns.map campaignCore =
      st.db.campaigns.map campaignCore := by
  unfold dispatchStep
  cases hr : (attemptMessage (env i) st.db cid m).1 <;> cases hpa : pa i <;>
    simp [hr, hpa, pauseRoute, setCampaignStatus_core, markSent_campaigns, markFailed_campaigns]

theorem dispatchStep_campaigns_nopause (env : Nat → ChannelStep) (cid now : Nat)
    (pa : Nat → Bool) (m : Message) (i : Nat) (st : LoopState) (hpa : pa i = false) :
    (dispatchStep env cid now pa m i st).db.campaigns = st.db.campaigns := by
  unfold dispatchStep
  cases hr : (attemptMessage (env i) st.db cid m).1 <;>
    simp [hr, hpa, markSent_campaigns, markFailed_campaigns]

theorem dispatchStep_mem_ne (env : Nat → ChannelStep) (cid now : Nat) (pa : Nat → Bool)
    (m : Message) (i : Nat) (st : LoopState) {m2 : Message}
    (hm : m2 ∈ st.db.messages) (hne : m2.id ≠ m.id) :
    m2 ∈ (dispatchStep env cid now pa m i st).db.messages := by
  unfold dispatchStep
  cases hr : (attemptMessage (env i) st.db cid m).1 with
  | ok u =>
    cases hpa : pa i with
    | false => simpa [hr, hpa] using markSent_mem_of_ne st.db m.id now hm hne
    | true =>
      simpa [hr, hpa, pauseRoute, setCampaignStatus_messages] using
        markSent_mem_of_ne st.db m.id now hm hne
  | error e =>
    cases hpa : pa i with
    | false => simpa [hr, hpa] using markFailed_mem_of_ne st.db m.id e hm hne
    | true =>
      simpa [hr, hpa, pauseRoute, setCampaignStatus_messages] using
        markFailed_mem_of_ne st.db m.id e hm hne

theorem dispatchStep_terminal (env : Nat → ChannelStep) (cid now : Nat) (pa : Nat → Bool)
    (m : Message) (i : Nat) (st : LoopState) (hm : m ∈ st.db.messages) :
    ∃ m2 ∈ (dispatchStep env cid now pa m i st).db.messages,
      m2.id = m.id ∧ m2.status ≠ MStatus.pending := by
  unfold dispatchStep
  cases hr : (attemptMessage (env i) st.db cid m).1 with
  | ok u =>
    refine ⟨{ m with status := MStatus.sent, sentAt := some now }, ?_, rfl, by simp⟩
    cases hpa : pa i with
    | false => simpa [hr, hpa] using markSent_mem_self st.db now hm
    | true =>
      simpa [hr, hpa, pauseRoute, setCampaignStatus_messages] using
        markSent_mem_self st.db now hm
  | error e =>
    refine ⟨{ m with status := MStatus.failed, error := some e }, ?_, rfl, by simp⟩
    cases hpa : pa i with
    | false => simpa [hr, hpa] using markFailed_mem_self st.db e hm
    | true =>
      simpa [hr, hpa, pauseRoute, setCampaignStatus_messages] using
        markFailed_mem_self st.db e hm

theorem dispatchLoop_counts (env : Nat → ChannelStep) (cid now : Nat) (pa : Nat → Bool) :
    ∀ (l : List Message) (i : Nat) (st : LoopState),
      (dispatchLoop env cid now pa l i st).sent + (dispatchLoop env cid now pa l i st).failed =
        st.sent + st.failed + l.length := by
  intro l
  induction l with
  | nil => intro i st; simp [dispatchLoop]
  | cons m rest ih =>
    intro i st
    rw [dispatchLoop, ih]
    have h := dispatchStep_counts env cid now pa m i st
    simp only [List.length_cons]
    omega

theorem dispatchLoop_msgIds (env : Nat → ChannelStep) (cid now : Nat) (pa : Nat → Bool) :
    ∀ (l : List Message) (i : Nat) (st : LoopState),
      (dispatchLoop env cid now pa l i st).db.messages.map (fun x => x.id) =
        st.db.messages.map (fun x => x.id) := by
  intro l
  induction l with
  | nil => intro i st; rfl
  | cons m rest ih =>
    intro i st
    rw [dispatchLoop, ih]
    exact dispatchStep_msgIds env cid now pa m i st

theorem dispatchLoop_core (env : Nat → ChannelStep) (cid now : Nat) (pa : Nat → Bool) :
    ∀ (l : List Message) (i : Nat) (st : LoopState),
      (dispatchLoop env cid now pa l i st).db.campaigns.map campaignCore =
        st.db.campaigns.map campaignCore := by
  intro l
  induction l with
  | nil => intro i st; rfl
  | cons m rest ih =>
    intro i st
    rw [dispatchLoop, ih]
    exact dispatchStep_core env cid now pa m i st

theorem dispatchLoop_campaigns_nopause (env : Nat → ChannelStep) (cid now : Nat)
    (pa : Nat → Bool) (hpa : ∀ j, pa j = false) :
    ∀ (l : List Message) (i : Nat) (st : LoopState),
      (dispatchLoop env cid now pa l i st).db.campaigns = st.db.campaigns := by
  intro l
  induction l with
  | nil => intro i st; rfl
  | cons m rest ih =>
    intro i st
    rw [dispatchLoop, ih]
    exact dispatchStep_campaigns_nopause env cid now pa m i st (hpa i)

theorem dispatchLoop_preserve_mem (env : Nat → ChannelStep) (cid now : Nat)
    (pa : Nat → Bool) :
    ∀ (l : List Message) (i : Nat) (st : LoopState) (m2 : Message),
      m2 ∈ st.db.messages → m2.id ∉ l.map (fun x => x.id) →
      m2 ∈ (dispatchLoop env cid now pa l i st).db.messages := by
  intro l
  induction l with
  | nil => intro i st m2 hm _; exact hm
  | cons m rest ih =>
    intro i st m2 hm hnot
    rw [dispatchLoop]
    have hne : m2.id ≠ m.id := fun he => hnot (by rw [he]; exact List.mem_cons_self _ _)
    have hrest : m2.id ∉ rest.map (fun x => x.id) :=
      fun hx => hnot (List.mem_cons_of_mem _ hx)
    exact ih _ _ m2 (dispatchStep_mem_ne env cid now pa m i st hm hne) hrest

theorem dispatchLoop_terminal (env : Nat → ChannelStep) (cid now : Nat) (pa : Nat → Bool) :
    ∀ (l : List Message) (i : Nat) (st : LoopState),
      (l.map (fun x => x.id)).Nodup → (∀ x ∈ l, x ∈ st.db.messages) →
      ∀ m ∈ l, ∃ m2 ∈ (dispatchLoop env cid now pa l i st).db.messages,
        m2.id = m.id ∧ m2.status ≠ MStatus.pending := by
  intro l
  induction l with
  | nil => intro i st _ _ m hm; exact absurd hm (List.not_mem_nil m)
  | cons hd rest ih =>
    intro i st hnd hsub m hm
    rw [dispatchLoop]
    have hhd : hd.id ∉ rest.map (fun x => x.id) := (List.nodup_cons.mp hnd).1
    have hndr : (rest.map (fun x => x.id)).Nodup := (List.nodup_cons.mp hnd).2
    have hsub2 : ∀ x ∈ rest, x ∈ (dispatchStep env cid now pa hd i st).db.messages := by
      intro x hx
      have hxid : x.id ≠ hd.id := by
        intro he
        exact hhd (he ▸ List.mem_map_of_mem (fun x => x.id) hx)
      exact dispatchStep_mem_ne env cid now pa hd i st (hsub x (List.mem_cons_of_mem _ hx)) hxid
    rcases List.mem_cons.mp hm with rfl | hmr
    · obtain ⟨m2, hm2, hid, hstat⟩ :=
        dispatchStep_terminal env cid now pa m i st (hsub m (List.mem_cons_self m rest))
      refine ⟨m2, ?_, hid, hstat⟩
      exact dispatchLoop_preserve_mem env cid now pa rest (i + 1) _ m2 hm2
        (by rw [hid]; exact hhd)
    · exact ih _ _ hndr hsub2 m hmr

theorem attemptMessage_notReady (step : ChannelStep) (db : Db) (cid : Nat) (m : Message)
    (h : step.ready = false) :
    attemptMessage step db cid m = (Except.error "WhatsApp client not ready", none) := by
  unfold attemptMessage
  rw [if_pos h]

theorem dispatchLoop_notReady (env : Nat → ChannelStep) (cid now : Nat) (pa : Nat → Bool)
    (henv : ∀ j, (env j).ready = false) :
    ∀ (l : List Message) (i : Nat) (st : LoopState),
      (l.map (fun x => x.id)).Nodup → (∀ x ∈ l, x ∈ st.db.messages) →
      (∀ m ∈ l, { m with status := MStatus.failed, error := some "WhatsApp client not ready" } ∈
          (dispatchLoop env cid now pa l i st).db.messages) ∧
      (dispatchLoop env cid now pa l i st).sent = st.sent ∧
      (dispatchLoop env cid now pa l i st).failed = st.failed + l.length := by
  intro l
  induction l with
  | nil =>
    intro i st _ _
    exact ⟨fun m hm => absurd hm (List.not_mem_nil m), rfl, by simp [dispatchLoop]⟩
  | cons hd rest ih =>
    intro i st hnd hsub
    rw [dispatchLoop]
    have hhd : hd.id ∉ rest.map (fun x => x.id) := (List.nodup_cons.mp hnd).1
    have hndr : (rest.map (fun x => x.id)).Nodup := (List.nodup_cons.mp hnd).2
    have hstep : dispatchStep env cid now pa hd i st =
        (if pa i then
          { db := (pauseRoute (markFailed st.db hd.id "WhatsApp client not ready") cid).2,
            sent := st.sent, failed := st.failed + 1, log := st.log ++ [] }
         else
          ⟨markFailed st.db hd.id "WhatsApp client not ready", st.sent, st.failed + 1,
            st.log ++ []⟩) := by
      unfold dispatchStep
      rw [attemptMessage_notReady _ _ _ _ (henv i)]
      rfl
    have hmsg : (dispatchStep env cid now pa hd i st).db.messages =
        (markFailed st.db hd.id "WhatsApp client not ready").messages := by
      rw [hstep]
      cases hpa : pa i with
      | false => simp [hpa]
      | true => simp [hpa, pauseRoute, setCampaignStatus_messages]
    have hsent : (dispatchStep env cid now pa hd i st).sent = st.sent := by
      rw [hstep]; cases hpa : pa i <;> simp [hpa]
    have hfail : (dispatchStep env cid now pa hd i st).failed = st.failed + 1 := by
      rw [hstep]; cases hpa : pa i <;> simp [hpa]
    have hsub2 : ∀ x ∈ rest, x ∈ (dispatchStep env cid now pa hd i st).db.messages := by
      intro x hx
      have hxid : x.id ≠ hd.id := by
        intro he
        exact hhd (he ▸ List.mem_map_of_mem (fun x => x.id) hx)
      rw [hmsg]
      exact markFailed_mem_of_ne st.db hd.id _ (hsub x (List.mem_cons_of_mem _ hx)) hxid
    obtain ⟨ihmem, ihsent, ihfail⟩ := ih (i + 1) (dispatchStep env cid now pa hd i st) hndr hsub2
    refine ⟨?_, ?_, ?_⟩
    · intro m hm
      rcases List.mem_cons.mp hm with rfl | hmr
      · refine dispatchLoop_preserve_mem env cid now pa rest (i + 1) _ _ ?_ hhd
        rw [hmsg]
        exact markFailed_mem_self st.db _ (hsub m (List.mem_cons_self m rest))
      · exact ihmem m hmr
    · rw [ihsent, hsent]
    · rw [ihfail, hfail, List.length_cons]
      omega
/-! ## Campaign-creation lemmas -/

theorem mkMessages_length (cid : Nat) (tmpl : String) :
    ∀ (l : List Contact) (s : Nat), (mkMessages s cid tmpl l).length = l.length := by
  intro l
  induction l with
  | nil => intro s; rfl
  | cons c rest ih => intro s; simp [mkMessages, ih]

theorem mkMessages_ids (cid : Nat) (tmpl : String) :
    ∀ (l : List Contact) (s : Nat),
      (mkMessages s cid tmpl l).map (fun m => m.id) = List.range' s l.length := by
  intro l
  induction l with
  | nil => intro s; rfl
  | cons c rest ih =>
    intro s
    simp [mkMessages, ih, List.range']

theorem mkMessages_mem (cid : Nat) (tmpl : String) :
    ∀ (l : List Contact) (s : Nat) (m : Message), m ∈ mkMessages s cid tmpl l →
      m.status = MStatus.pending ∧ m.campaignId = cid ∧
      ∃ c ∈ l, m.phone = c.phone ∧ m.message = personalizedMessage tmpl c := by
  intro l
  induction l with
  | nil => intro s m hm; exact absurd hm (List.not_mem_nil m)
  | cons c rest ih =>
    intro s m hm
    rcases List.mem_cons.mp hm with rfl | hmr
    · exact ⟨rfl, rfl, c, List.mem_cons_self c rest, rfl, rfl⟩
    · obtain ⟨h1, h2, c2, hc2, h3, h4⟩ := ih (s + 1) m hmr
      exact ⟨h1, h2, c2, List.mem_cons_of_mem c hc2, h3, h4⟩

theorem isEmpty_false_of_ne {ids : List Nat} (h : ids ≠ []) : ids.isEmpty = false := by
  cases ids with
  | nil => exact absurd rfl h
  | cons a l => rfl

theorem createCampaign_res_pos (db : Db) (n tmpl : String) (ids : List Nat)
    (sch : Option Nat) (mu mt : Option String) (h : ids ≠ []) :
    (createCampaign db n tmpl ids sch mu mt).1 = Except.ok db.nextCampaignId := by
  unfold createCampaign
  simp [isEmpty_false_of_ne h]

theorem createCampaign_messages_pos (db : Db) (n tmpl : String) (ids : List Nat)
    (sch : Option Nat) (mu mt : Option String) (h : ids ≠ []) :
    (createCampaign db n tmpl ids sch mu mt).2.messages =
      db.messages ++ mkMessages db.nextMessageId db.nextCampaignId tmpl
        (db.contacts.filter (fun c => decide (c.id ∈ ids))) := by
  unfold createCampaign selectedContacts
  simp [isEmpty_false_of_ne h]

theorem createCampaign_nextMsgId_pos (db : Db) (n tmpl : String) (ids : List Nat)
    (sch : Option Nat) (mu mt : Option String) (h : ids ≠ []) :
    (createCampaign db n tmpl ids sch mu mt).2.nextMessageId =
      db.nextMessageId +
        (db.contacts.filter (fun c => decide (c.id ∈ ids))).length := by
  unfold createCampaign selectedContacts
  simp [isEmpty_false_of_ne h, mkMessages_length]

theorem selectedContacts_length (db : Db) (ids : List Nat)
    (hC : (db.contacts.map (fun c => c.id)).Nodup) (hnd : ids.Nodup)
    (hex : ∀ i ∈ ids, ∃ c ∈ db.contacts, c.id = i) :
    (db.contacts.filter (fun c => decide (c.id ∈ ids))).length = ids.length := by
  have hmapnd : ((db.contacts.filter (fun c => decide (c.id ∈ ids))).map
      (fun c => c.id)).Nodup :=
    ((List.filter_sublist _).map _).nodup hC
  have hiff : ∀ a, a ∈ (db.contacts.filter (fun c => decide (c.id ∈ ids))).map
      (fun c => c.id) ↔ a ∈ ids := by
    intro a
    constructor
    · intro ha
      obtain ⟨c, hc, he⟩ := List.mem_map.mp ha
      have h2 := List.mem_filter.mp hc
      rw [← he]
      exact of_decide_eq_true h2.2
    · intro ha
      obtain ⟨c, hc, he⟩ := hex a ha
      rw [← he]
      exact List.mem_map_of_mem _
        (List.mem_filter.mpr ⟨hc, decide_eq_true (he ▸ ha)⟩)
  have hperm := (List.perm_ext_iff_of_nodup hmapnd hnd).mpr hiff
  have hlen := hperm.length_eq
  simpa using hlen

/-- C9 (amended): campaign creation with an empty contact id list fails
    — the empty IN clause is a sqlite statement error answered as a
    500, not an InvalidInput — but the failure is not clean: the
    Campaign row has already been inserted and persists, while no
    Message rows are created. -/
theorem c9_empty_contacts_amended (db : Db) (n tmpl : String)
    (sch : Option Nat) (mu mt : Option String) :
    (createCampaign db n tmpl [] sch mu mt).1 = Except.error emptyInClauseError ∧
    (createCampaign db n tmpl [] sch mu mt).2.messages = db.messages ∧
    ∃ camp : Campaign,
      (createCampaign db n tmpl [] sch mu mt).2.campaigns = db.campaigns ++ [camp] ∧
      camp.id = db.nextCampaignId :=
  ⟨rfl, rfl, ⟨_, rfl, rfl⟩⟩

/-- C9 counterexample: on the empty database, creation with an empty
    contact list fails but a Campaign row is created and survives,
    contradicting both "fails with InvalidInput" and "no partial
    state". -/
theorem c9_counterexample :
    (createCampaign dbEmpty "n" "m" [] none none none).1 =
      Except.error emptyInClauseError ∧
    (createCampaign dbEmpty "n" "m" [] none none none).2.campaigns.length = 1 ∧
    (createCampaign dbEmpty "n" "m" [] none none none).2.messages = [] :=
  ⟨rfl, by decide, by decide⟩

/-- C6 (amended): creating a campaign over N distinct existing contact
    ids inserts exactly N Message rows, each "pending", each
    snapshotting its contact phone and carrying the body produced by
    the sequential {name}/{phone}/{email} substitution; in the Ana/Leo
    scenario the bodies are exactly "Hi Ana, your number is +1555" and
    "Hi Leo, your number is +1556".  The blanket "no literal token
    remains when the field is populated" clause is dropped: a populated
    field value can itself reintroduce a token (see the
    counterexample). -/
theorem c6_creation_amended :
    (∀ (db : Db) (n tmpl : String) (ids : List Nat) (sch : Option Nat)
        (mu mt : Option String),
      ids ≠ [] → ids.Nodup → (db.contacts.map (fun c => c.id)).Nodup →
      (∀ i ∈ ids, ∃ c ∈ db.contacts, c.id = i) →
      (createCampaign db n tmpl ids sch mu mt).1 = Except.ok db.nextCampaignId ∧
      (createCampaign db n tmpl ids sch mu mt).2.messages.length =
        db.messages.length + ids.length ∧
      (∀ m ∈ (createCampaign db n tmpl ids sch mu mt).2.messages,
        m ∈ db.messages ∨
          (m.status = MStatus.pending ∧ ∃ c ∈ db.contacts, c.id ∈ ids ∧
            m.phone = c.phone ∧ m.message = personalizedMessage tmpl c))) ∧
    ((createCampaign dbAnaLeo "camp" "Hi {name}, your number is {phone}"
        [1, 2] none none none).2.messages.map (fun m => m.message) =
      ["Hi Ana, your number is +1555", "Hi Leo, your number is +1556"]) := by
  constructor
  · intro db n tmpl ids sch mu mt hne hnd hC hex
    refine ⟨createCampaign_res_pos db n tmpl ids sch mu mt hne, ?_, ?_⟩
    · rw [createCampaign_messages_pos db n tmpl ids sch mu mt hne, List.length_append,
        mkMessages_length, selectedContacts_length db ids hC hnd hex]
    · intro m hm
      rw [createCampaign_messages_pos db n tmpl ids sch mu mt hne] at hm
      rcases List.mem_append.mp hm with h | h
      · exact Or.inl h
      · right
        obtain ⟨h1, _, c, hcf, h3, h4⟩ := mkMessages_mem db.nextCampaignId tmpl _ _ m h
        have h5 := List.mem_filter.mp hcf
        exact ⟨h1, c, h5.1, of_decide_eq_true h5.2, h3, h4⟩
  · decide

/-- C6 witness: the general part of the amended theorem applied to the
    Ana/Leo database. -/
theorem c6_witness :
    (createCampaign dbAnaLeo "camp" "T {email}" [1, 2] none none none).1 =
      Except.ok dbAnaLeo.nextCampaignId ∧
    (createCampaign dbAnaLeo "camp" "T {email}" [1, 2] none none none).2.messages.length =
      dbAnaLeo.messages.length + ([1, 2] : List Nat).length ∧
    (∀ m ∈ (createCampaign dbAnaLeo "camp" "T {email}" [1, 2] none none none).2.messages,
      m ∈ dbAnaLeo.messages ∨
        (m.status = MStatus.pending ∧ ∃ c ∈ dbAnaLeo.contacts,
          c.id ∈ ([1, 2] : List Nat) ∧ m.phone = c.phone ∧
          m.message = personalizedMessage "T {email}" c)) :=
  c6_creation_amended.1 dbAnaLeo "camp" "T {email}" [1, 2] none none none
    (by decide) (by decide) (by decide) (by decide)

/-- C6 counterexample: a contact whose populated name field is the
    string "\x7bname\x7d" — the created body still contains the literal
    token even though the field is populated, against the claim. -/
theorem c6_counterexample :
    ((createCampaign dbTokenName "camp" "{name}" [1] none none none).2.messages.map
        (fun m => m.message)) = ["{name}"] ∧
    (dbTokenName.contacts.map (fun c => c.name)) = [some "{name}"] ∧
    containsSubL "{name}".toList "{name}".toList = true :=
  ⟨by decide, by decide, by decide⟩

theorem mem_pendingSnapshot (db : Db) (cid : Nat) (m : Message) :
    m ∈ pendingSnapshot db cid ↔
      m ∈ db.messages ∧ m.campaignId = cid ∧ m.status = MStatus.pending := by
  unfold pendingSnapshot
  rw [List.mem_filter]
  simp [and_assoc]

theorem pendingSnapshot_ids_nodup (db : Db) (cid : Nat)
    (h : (db.messages.map (fun x => x.id)).Nodup) :
    ((pendingSnapshot db cid).map (fun x => x.id)).Nodup := by
  unfold pendingSnapshot
  exact ((List.filter_sublist _).map _).nodup h

/-- C3: when the transport is never ready during a dispatch run, every
    message of the campaign that was pending at the start ends "failed"
    with the channel-unavailable error "WhatsApp client not ready"
    recorded in its error column, the run reports failed = total and
    sent = 0, and the campaign is marked "completed" — the dispatcher
    resolves the campaign instead of leaving it unresolved. -/
theorem c3_channel_never_ready (env : Nat → ChannelStep) (cid now : Nat) (db : Db)
    (henv : ∀ j, (env j).ready = false)
    (hids : (db.messages.map (fun x => x.id)).Nodup) :
    (∀ m ∈ db.messages, m.campaignId = cid → m.status = MStatus.pending →
      { m with status := MStatus.failed, error := some "WhatsApp client not ready" } ∈
        (sendBulkMessages env cid now db).1.messages) ∧
    (sendBulkMessages env cid now db).2.failed = (sendBulkMessages env cid now db).2.total ∧
    (sendBulkMessages env cid now db).2.sent = 0 ∧
    (∀ c ∈ db.campaigns, c.id = cid →
      { c with status := CStatus.completed, completedAt := some now } ∈
        (sendBulkMessages env cid now db).1.campaigns) := by
  have hnd := pendingSnapshot_ids_nodup db cid hids
  have hsub : ∀ x ∈ pendingSnapshot db cid, x ∈ (⟨db, 0, 0, []⟩ : LoopState).db.messages :=
    fun x hx => ((mem_pendingSnapshot db cid x).mp hx).1
  obtain ⟨hmem, hsent, hfail⟩ :=
    dispatchLoop_notReady env cid now (fun _ => false) henv
      (pendingSnapshot db cid) 0 ⟨db, 0, 0, []⟩ hnd hsub
  refine ⟨?_, ?_, ?_, ?_⟩
  · intro m hm hcid hstat
    have hp : m ∈ pendingSnapshot db cid :=
      (mem_pendingSnapshot db cid m).mpr ⟨hm, hcid, hstat⟩
    have h := hmem m hp
    show _ ∈ (completeCampaign (dispatchLoop env cid now (fun _ => false)
        (pendingSnapshot db cid) 0 ⟨db, 0, 0, []⟩).db cid now).messages
    rw [completeCampaign_messages]
    exact h
  · show (dispatchLoop env cid now (fun _ => false)
        (pendingSnapshot db cid) 0 ⟨db, 0, 0, []⟩).failed = (pendingSnapshot db cid).length
    rw [hfail]
    simp
  · exact hsent
  · intro c hc hcid
    have hcamp := dispatchLoop_campaigns_nopause env cid now (fun _ => false) (fun _ => rfl)
      (pendingSnapshot db cid) 0 ⟨db, 0, 0, []⟩
    exact completeCampaign_mem _ cid now (hcamp.symm ▸ hc) hcid

/-- C3 witness: a never-ready run over the one-pending-message database
    fails its message, completes the campaign, and reports
    failed = total, sent = 0. -/
theorem c3_witness :
    (∀ m ∈ dbOnePending.messages, m.campaignId = 1 → m.status = MStatus.pending →
      { m with status := MStatus.failed, error := some "WhatsApp client not ready" } ∈
        (sendBulkMessages envDown 1 0 dbOnePending).1.messages) ∧
    (sendBulkMessages envDown 1 0 dbOnePending).2.failed =
      (sendBulkMessages envDown 1 0 dbOnePending).2.total ∧
    (sendBulkMessages envDown 1 0 dbOnePending).2.sent = 0 ∧
    (∀ c ∈ dbOnePending.campaigns, c.id = 1 →
      { c with status := CStatus.completed, completedAt := some 0 } ∈
        (sendBulkMessages envDown 1 0 dbOnePending).1.campaigns) :=
  c3_channel_never_ready envDown 1 0 dbOnePending (fun _ => rfl) (by decide)

/-- C7: after a dispatch run has attempted every message pending at its
    start, the campaign is "completed" with its completion timestamp
    recorded regardless of how many attempts failed, and the resolved
    DispatchResult satisfies sent + failed = total with total the size
    of the pending snapshot fetched at the start. -/
theorem c7_run_completes (env : Nat → ChannelStep) (cid now : Nat) (db : Db)
    (c : Campaign) (hc : c ∈ db.campaigns) (hid : c.id = cid)
    (_hrun : c.status = CStatus.running) :
    (sendBulkMessages env cid now db).2.sent + (sendBulkMessages env cid now db).2.failed =
      (sendBulkMessages env cid now db).2.total ∧
    (sendBulkMessages env cid now db).2.total = (pendingSnapshot db cid).length ∧
    { c with status := CStatus.completed, completedAt := some now } ∈
      (sendBulkMessages env cid now db).1.campaigns := by
  refine ⟨?_, rfl, ?_⟩
  · show (dispatchLoop env cid now (fun _ => false)
          (pendingSnapshot db cid) 0 ⟨db, 0, 0, []⟩).sent +
        (dispatchLoop env cid now (fun _ => false)
          (pendingSnapshot db cid) 0 ⟨db, 0, 0, []⟩).failed =
        (pendingSnapshot db cid).length
    have h := dispatchLoop_counts env cid now (fun _ => false)
      (pendingSnapshot db cid) 0 ⟨db, 0, 0, []⟩
    simpa using h
  · have hcamp := dispatchLoop_campaigns_nopause env cid now (fun _ => false) (fun _ => rfl)
      (pendingSnapshot db cid) 0 ⟨db, 0, 0, []⟩
    exact completeCampaign_mem _ cid now (hcamp.symm ▸ hc) hid

/-- C7 witness: the theorem applied to the concrete one-pending-message
    database with an always-ready channel. -/
theorem c7_witness :
    (sendBulkMessages envReady 1 0 dbOnePending).2.sent +
        (sendBulkMessages envReady 1 0 dbOnePending).2.failed =
      (sendBulkMessages envReady 1 0 dbOnePending).2.total ∧
    (sendBulkMessages envReady 1 0 dbOnePending).2.total =
      (pendingSnapshot dbOnePending 1).length ∧
    (⟨1, "c", "hello", none, none, CStatus.completed, none, some 0⟩ : Campaign) ∈
      (sendBulkMessages envReady 1 0 dbOnePending).1.campaigns :=
  c7_run_completes envReady 1 0 dbOnePending
    ⟨1, "c", "hello", none, none, CStatus.running, none, none⟩ (by decide) rfl rfl

/-- C4 (amended): the dispatch loop never observes a pause request: no
    matter when pause requests arrive at per-message boundaries, every
    message of the pending snapshot is attempted (none is left pending)
    and the campaign finishes "completed" with a completion timestamp,
    overwriting "paused"; what does hold of the original claim is that
    a subsequent dispatch selects only messages still pending, so no
    message attempted in this run is ever selected again. -/
theorem c4_pause_not_observed (env : Nat → ChannelStep) (cid now : Nat)
    (pa : Nat → Bool) (db : Db)
    (hids : (db.messages.map (fun x => x.id)).Nodup) :
    (∀ m ∈ pendingSnapshot db cid,
      ∃ m2 ∈ (sendBulkWith env cid now pa db).1.messages,
        m2.id = m.id ∧ m2.status ≠ MStatus.pending) ∧
    (∀ c ∈ db.campaigns, c.id = cid →
      { c with status := CStatus.completed, completedAt := some now } ∈
        (sendBulkWith env cid now pa db).1.campaigns) ∧
    (∀ m ∈ pendingSnapshot db cid,
      ∀ m2 ∈ pendingSnapshot (sendBulkWith env cid now pa db).1 cid, m2.id ≠ m.id) := by
  have hnd := pendingSnapshot_ids_nodup db cid hids
  have hsub : ∀ x ∈ pendingSnapshot db cid, x ∈ (⟨db, 0, 0, []⟩ : LoopState).db.messages :=
    fun x hx => ((mem_pendingSnapshot db cid x).mp hx).1
  have hterm := dispatchLoop_terminal env cid now pa
    (pendingSnapshot db cid) 0 ⟨db, 0, 0, []⟩ hnd hsub
  have hfinmsgs : (sendBulkWith env cid now pa db).1.messages =
      (dispatchLoop env cid now pa (pendingSnapshot db cid) 0 ⟨db, 0, 0, []⟩).db.messages := by
    show (completeCampaign _ cid now).messages = _
    rw [completeCampaign_messages]
  refine ⟨?_, ?_, ?_⟩
  · intro m hm
    obtain ⟨m2, hm2, hid2, hstat⟩ := hterm m hm
    exact ⟨m2, by rw [hfinmsgs]; exact hm2, hid2, hstat⟩
  · intro c hc hcid
    have hcore := dispatchLoop_core env cid now pa (pendingSnapshot db cid) 0 ⟨db, 0, 0, []⟩
    have h1 : campaignCore c ∈
        (dispatchLoop env cid now pa (pendingSnapshot db cid) 0
          ⟨db, 0, 0, []⟩).db.campaigns.map campaignCore := by
      rw [hcore]
      exact List.mem_map_of_mem campaignCore hc
    obtain ⟨c2, hc2, hcc⟩ := List.mem_map.mp h1
    have hid2 : c2.id = cid := by
      have h := congrArg Prod.fst hcc
      simpa [campaignCore, hcid] using h
    have heq : ({ c2 with status := CStatus.completed, completedAt := some now } : Campaign) =
        { c with status := CStatus.completed, completedAt := some now } := by
      cases c2
      cases c
      simp only [campaignCore, Prod.mk.injEq] at hcc
      obtain ⟨e1, e2, e3, e4, e5, e6⟩ := hcc
      simp [e1, e2, e3, e4, e5, e6]
    exact heq ▸ completeCampaign_mem _ cid now hc2 hid2
  · intro m hm m2 hm2 he
    obtain ⟨m3, hm3, hid3, hstat⟩ := hterm m hm
    have hm2p := (mem_pendingSnapshot _ cid m2).mp hm2
    have hidseq := dispatchLoop_msgIds env cid now pa (pendingSnapshot db cid) 0 ⟨db, 0, 0, []⟩
    have hnodup : ((sendBulkWith env cid now pa db).1.messages.map (fun x => x.id)).Nodup := by
      rw [hfinmsgs, hidseq]
      exact hids
    have hm3f : m3 ∈ (sendBulkWith env cid now pa db).1.messages := by
      rw [hfinmsgs]; exact hm3
    have he2 : m2 = m3 :=
      List.inj_on_of_nodup_map hnodup hm2p.1 hm3f (by rw [he, hid3])
    exact hstat (he2 ▸ hm2p.2.2)

/-- C4 counterexample: two pending messages, channel ready, a pause
    request arriving after the first attempt; the claim demands that the
    second message stay pending and that exactly one message reach a
    terminal state, but the run sends both messages and finishes the
    campaign as "completed". -/
theorem c4_counterexample :
    ((sendBulkWith envReady 1 0 (fun i => i == 0) dbTwoPending).1.messages.map
        (fun m => m.status)) = [MStatus.sent, MStatus.sent] ∧
    ((sendBulkWith envReady 1 0 (fun i => i == 0) dbTwoPending).1.campaigns.map
        (fun c => c.status)) = [CStatus.completed] :=
  ⟨by decide, by decide⟩

/-- C4 witness: the amended theorem applied to the concrete
    two-pending-message run with a pause after the first attempt. -/
theorem c4_witness :
    (∀ m ∈ pendingSnapshot dbTwoPending 1,
      ∃ m2 ∈ (sendBulkWith envReady 1 0 (fun i => i == 0) dbTwoPending).1.messages,
        m2.id = m.id ∧ m2.status ≠ MStatus.pending) ∧
    (∀ c ∈ dbTwoPending.campaigns, c.id = 1 →
      { c with status := CStatus.completed, completedAt := some 0 } ∈
        (sendBulkWith envReady 1 0 (fun i => i == 0) dbTwoPending).1.campaigns) ∧
    (∀ m ∈ pendingSnapshot dbTwoPending 1,
      ∀ m2 ∈ pendingSnapshot (sendBulkWith envReady 1 0 (fun i => i == 0) dbTwoPending).1 1,
        m2.id ≠ m.id) :=
  c4_pause_not_observed envReady 1 0 (fun i => i == 0) dbTwoPending (by decide)

/-! ## Well-formedness machinery (claim C8) -/

theorem markSent_nextMsgId (db : Db) (mid now : Nat) :
    (markSent db mid now).nextMessageId = db.nextMessageId := rfl

theorem markFailed_nextMsgId (db : Db) (mid : Nat) (e : String) :
    (markFailed db mid e).nextMessageId = db.nextMessageId := rfl

theorem setCampaignStatus_nextMsgId (db : Db) (cid : Nat) (stt : CStatus) :
    (setCampaignStatus db cid stt).nextMessageId = db.nextMessageId := rfl

theorem completeCampaign_nextMsgId (db : Db) (cid now : Nat) :
    (completeCampaign db cid now).nextMessageId = db.nextMessageId := rfl

theorem dispatchStep_nextMsgId (env : Nat → ChannelStep) (cid now : Nat) (pa : Nat → Bool)
    (m : Message) (i : Nat) (st : LoopState) :
    (dispatchStep env cid now pa m i st).db.nextMessageId = st.db.nextMessageId := by
  unfold dispatchStep
  cases hr : (attemptMessage (env i) st.db cid m).1 <;> cases hpa : pa i <;>
    simp [hr, hpa, pauseRoute, markSent_nextMsgId, markFailed_nextMsgId,
      setCampaignStatus_nextMsgId]

theorem dispatchLoop_nextMsgId (env : Nat → ChannelStep) (cid now : Nat) (pa : Nat → Bool) :
    ∀ (l : List Message) (i : Nat) (st : LoopState),
      (dispatchLoop env cid now pa l i st).db.nextMessageId = st.db.nextMessageId := by
  intro l
  induction l with
  | nil => intro i st; rfl
  | cons m rest ih =>
    intro i st
    rw [dispatchLoop, ih]
    exact dispatchStep_nextMsgId env cid now pa m i st

theorem msgWf_of_ids_eq {db1 db2 : Db}
    (hids : db2.messages.map (fun x => x.id) = db1.messages.map (fun x => x.id))
    (hnext : db2.nextMessageId = db1.nextMessageId) (h : db1.msgWf) : db2.msgWf := by
  constructor
  · rw [hids]
    exact h.1
  · intro m hm
    have hin : m.id ∈ db2.messages.map (fun x => x.id) := List.mem_map_of_mem _ hm
    rw [hids] at hin
    obtain ⟨m1, hm1, he⟩ := List.mem_map.mp hin
    rw [hnext, ← he]
    exact h.2 m1 hm1

theorem sendBulkWith_msgWf (env : Nat → ChannelStep) (cid now : Nat) (pa : Nat → Bool)
    (db : Db) (hwf : db.msgWf) : (sendBulkWith env cid now pa db).1.msgWf := by
  refine msgWf_of_ids_eq ?_ ?_ hwf
  · show (completeCampaign (dispatchLoop env cid now pa (pendingSnapshot db cid) 0
        ⟨db, 0, 0, []⟩).db cid now).messages.map (fun x => x.id) =
      db.messages.map (fun x => x.id)
    rw [completeCampaign_messages]
    exact dispatchLoop_msgIds env cid now pa (pendingSnapshot db cid) 0 ⟨db, 0, 0, []⟩
  · show (completeCampaign (dispatchLoop env cid now pa (pendingSnapshot db cid) 0
        ⟨db, 0, 0, []⟩).db cid now).nextMessageId = db.nextMessageId
    rw [completeCampaign_nextMsgId]
    exact dispatchLoop_nextMsgId env cid now pa (pendingSnapshot db cid) 0 ⟨db, 0, 0, []⟩

theorem sendBulkWith_preserves_nonpending (env : Nat → ChannelStep) (cid now : Nat)
    (pa : Nat → Bool) (db : Db) (hids : (db.messages.map (fun x => x.id)).Nodup)
    (m : Message) (hm : m ∈ db.messages) (hnp : m.status ≠ MStatus.pending) :
    m ∈ (sendBulkWith env cid now pa db).1.messages := by
  have hnot : m.id ∉ (pendingSnapshot db cid).map (fun x => x.id) := by
    intro hin
    obtain ⟨m2, hm2, he⟩ := List.mem_map.mp hin
    have h2 := (mem_pendingSnapshot db cid m2).mp hm2
    have heq : m2 = m := List.inj_on_of_nodup_map hids h2.1 hm he
    exact hnp (heq ▸ h2.2.2)
  have h := dispatchLoop_preserve_mem env cid now pa (pendingSnapshot db cid) 0
    ⟨db, 0, 0, []⟩ m hm hnot
  show m ∈ (completeCampaign _ cid now).messages
  rw [completeCampaign_messages]
  exact h

theorem tickProcess_preserves (env : Nat → ChannelStep) (now : Nat) :
    ∀ (sel : List Campaign) (db : Db), db.msgWf →
      (schedulerTickProcess env now sel db).2.msgWf ∧
      ∀ m ∈ db.messages, m.status ≠ MStatus.pending →
        m ∈ (schedulerTickProcess env now sel db).2.messages := by
  intro sel
  induction sel with
  | nil => intro db h; exact ⟨h, fun m hm _ => hm⟩
  | cons c rest ih =>
    intro db h
    have hw1 : (setCampaignStatus db c.id CStatus.running).msgWf :=
      msgWf_of_ids_eq rfl rfl h
    have hw2 : ((sendBulkMessages env c.id now
        (setCampaignStatus db c.id CStatus.running)).1).msgWf :=
      sendBulkWith_msgWf env c.id now (fun _ => false) _ hw1
    obtain ⟨ihw, ihm⟩ := ih _ hw2
    refine ⟨ihw, ?_⟩
    intro m hm hnp
    have hm2 : m ∈ (sendBulkMessages env c.id now
        (setCampaignStatus db c.id CStatus.running)).1.messages :=
      sendBulkWith_preserves_nonpending env c.id now (fun _ => false) _ hw1.1 m hm hnp
    exact ihm m hm2 hnp

/-- C8: every engine operation — campaign creation, start, pause,
    dispatch, scheduler tick — leaves every message row that is not
    "pending" exactly as it is (the dispatcher selects and updates only
    rows that were "pending"), and preserves well-formedness of the
    messages table; hence a Message only ever moves pending to sent or
    pending to failed, each at most once, and never reverts. -/
theorem c8_status_transitions (env : Nat → ChannelStep) (now : Nat) (op : Op) (db : Db)
    (hwf : db.msgWf) :
    (applyOp env now op db).msgWf ∧
    ∀ m ∈ db.messages, m.status ≠ MStatus.pending →
      m ∈ (applyOp env now op db).messages := by
  cases op with
  | create n tmpl ids sch mu mt =>
    cases ids with
    | nil =>
      exact ⟨msgWf_of_ids_eq rfl rfl hwf, fun m hm _ => hm⟩
    | cons a l =>
      have hne : (a :: l) ≠ ([] : List Nat) := by simp
      constructor
      · constructor
        · show ((createCampaign db n tmpl (a :: l) sch mu mt).2.messages.map
              (fun x => x.id)).Nodup
          rw [createCampaign_messages_pos db n tmpl (a :: l) sch mu mt hne,
            List.map_append, mkMessages_ids]
          refine List.Nodup.append hwf.1 (List.nodup_range' _ _) ?_
          intro x hx1 hx2
          obtain ⟨m, hm, he⟩ := List.mem_map.mp hx1
          have hlt : x < db.nextMessageId := he ▸ hwf.2 m hm
          have hge := (List.mem_range'_1.mp hx2).1
          omega
        · intro m hm
          have hm2 : m ∈ (createCampaign db n tmpl (a :: l) sch mu mt).2.messages := hm
          rw [createCampaign_messages_pos db n tmpl (a :: l) sch mu mt hne] at hm2
          show m.id < (createCampaign db n tmpl (a :: l) sch mu mt).2.nextMessageId
          rw [createCampaign_nextMsgId_pos db n tmpl (a :: l) sch mu mt hne]
          rcases List.mem_append.mp hm2 with h | h
          · have := hwf.2 m h
            omega
          · have hmm : m.id ∈ (mkMessages db.nextMessageId db.nextCampaignId tmpl
                (db.contacts.filter (fun c => decide (c.id ∈ (a :: l))))).map
                  (fun x => x.id) := List.mem_map_of_mem _ h
            rw [mkMessages_ids] at hmm
            exact (List.mem_range'_1.mp hmm).2
      · intro m hm hnp
        show m ∈ (createCampaign db n tmpl (a :: l) sch mu mt).2.messages
        rw [createCampaign_messages_pos db n tmpl (a :: l) sch mu mt hne]
        exact List.mem_append_left _ hm
  | start cid =>
    have hw1 : (startUpdate db cid).msgWf := msgWf_of_ids_eq rfl rfl hwf
    exact ⟨sendBulkWith_msgWf env cid now (fun _ => false) _ hw1,
      fun m hm hnp =>
        sendBulkWith_preserves_nonpending env cid now (fun _ => false) _ hw1.1 m hm hnp⟩
  | pause cid =>
    exact ⟨msgWf_of_ids_eq rfl rfl hwf, fun m hm _ => hm⟩
  | dispatch cid =>
    exact ⟨sendBulkWith_msgWf env cid now (fun _ => false) db hwf,
      fun m hm hnp =>
        sendBulkWith_preserves_nonpending env cid now (fun _ => false) db hwf.1 m hm hnp⟩
  | tick =>
    exact tickProcess_preserves env now (schedulerSelect db now) db hwf

/-- C8 witness: the invariant applied to a dispatch over a database
    holding an already-sent message. -/
theorem c8_witness :
    (applyOp envReady 0 (Op.dispatch 1) dbOneSent).msgWf ∧
    ∀ m ∈ dbOneSent.messages, m.status ≠ MStatus.pending →
      m ∈ (applyOp envReady 0 (Op.dispatch 1) dbOneSent).messages :=
  c8_status_transitions envReady 0 (Op.dispatch 1) dbOneSent (by decide)

/-! ## Claims C1 and C2 -/

theorem map_eq_self_of_skip {α : Type} (l : List α) (f : α → α)
    (h : ∀ x ∈ l, f x = x) : l.map f = l := by
  calc l.map f = l.map id := List.map_congr_left h
    _ = l := List.map_id l

/-- C1 (amended): the start route performs no existence or state check:
    it answers success for every id; when a campaign with that id
    exists, the route's UPDATE unconditionally sets its status to
    "running", even when it is already "running" or "completed" — a
    duplicate start is accepted and re-dispatched, not rejected with
    InvalidState; when no campaign and no message carries the id, the
    state is left unchanged but the route still answers success rather
    than NotFound. -/
theorem c1_start_unconditional (env : Nat → ChannelStep) (now : Nat) (db : Db) (cid : Nat) :
    (startRoute env now db cid).1 = Resp.success ∧
    (∀ c ∈ db.campaigns, c.id = cid →
      { c with status := CStatus.running } ∈ (startUpdate db cid).campaigns) ∧
    ((∀ c ∈ db.campaigns, c.id ≠ cid) → (∀ m ∈ db.messages, m.campaignId ≠ cid) →
      (startRoute env now db cid).2 = db) := by
  refine ⟨rfl, ?_, ?_⟩
  · intro c hc hcid
    unfold startUpdate setCampaignStatus
    have h := List.mem_map_of_mem
      (fun c => if c.id = cid then { c with status := CStatus.running } else c) hc
    simpa [hcid] using h
  · intro hnc hnm
    have hpend : pendingSnapshot db cid = [] := by
      unfold pendingSnapshot
      apply List.filter_eq_nil_iff.mpr
      intro m hm
      simp [hnm m hm]
    have hsu : startUpdate db cid = db := by
      unfold startUpdate setCampaignStatus
      show { db with campaigns := db.campaigns.map _ } = db
      rw [map_eq_self_of_skip _ _ (fun c hcm => by simp [hnc c hcm])]
    show (sendBulkMessages env cid now (startUpdate db cid)).1 = db
    rw [hsu]
    show completeCampaign (dispatchLoop env cid now (fun _ => false)
        (pendingSnapshot db cid) 0 ⟨db, 0, 0, []⟩).db cid now = db
    rw [hpend]
    show completeCampaign db cid now = db
    unfold completeCampaign
    show { db with campaigns := db.campaigns.map _ } = db
    rw [map_eq_self_of_skip _ _ (fun c hcm => by simp [hnc c hcm])]

/-- C1 witness: the amended theorem at the concrete database whose only
    campaign is already "running". -/
theorem c1_witness :
    (startRoute envReady 0 dbRunningOnly 1).1 = Resp.success ∧
    (∀ c ∈ dbRunningOnly.campaigns, c.id = 1 →
      { c with status := CStatus.running } ∈ (startUpdate dbRunningOnly 1).campaigns) ∧
    ((∀ c ∈ dbRunningOnly.campaigns, c.id ≠ 1) →
      (∀ m ∈ dbRunningOnly.messages, m.campaignId ≠ 1) →
      (startRoute envReady 0 dbRunningOnly 1).2 = dbRunningOnly) :=
  c1_start_unconditional envReady 0 dbRunningOnly 1

/-- C1 counterexample: starting the already-"running" campaign 1
    answers success rather than failing with InvalidState, and starting
    the non-existent campaign 99 answers success with no state change
    rather than failing with NotFound. -/
theorem c1_counterexample :
    dbRunningOnly.campaigns.map (fun c => c.status) = [CStatus.running] ∧
    (startRoute envReady 0 dbRunningOnly 1).1 = Resp.success ∧
    (startRoute envReady 0 dbRunningOnly 99).1 = Resp.success ∧
    (startRoute envReady 0 dbRunningOnly 99).2 = dbRunningOnly :=
  ⟨by decide, rfl, rfl, by decide⟩

/-- C2 (amended): the scheduled-to-running transition is not a
    check-and-set: the scheduler hands every campaign of its SELECTed
    list to the dispatcher unconditionally, never re-checking the
    status between the SELECT and the hand-off, so a selection raced by
    a manual start is dispatched a second time; and a manual start
    always answers success — neither contender can observe a
    rejection. -/
theorem c2_no_check_and_set (env : Nat → ChannelStep) (now : Nat) :
    (∀ (sel : List Campaign) (db : Db),
      (schedulerTickProcess env now sel db).1 = sel.map (fun c => c.id)) ∧
    (∀ (db : Db) (cid : Nat), (startRoute env now db cid).1 = Resp.success) := by
  constructor
  · intro sel
    induction sel with
    | nil => intro db; rfl
    | cons c rest ih =>
      intro db
      show c.id :: (schedulerTickProcess env now rest _).1 =
        c.id :: rest.map (fun c => c.id)
      rw [ih]
  · intro db cid
    rfl

/-- C2 counterexample: campaign 1 is "scheduled" and due at tick time;
    the tick SELECTs it, then a manual start runs to completion — it
    answers success, sends the pending message and completes the
    campaign — and the tick callback still hands campaign 1 to the
    dispatcher afterwards: both contenders dispatch, and neither
    observes a rejection. -/
theorem c2_counterexample :
    (schedulerSelect dbSched 5).map (fun c => c.id) = [1] ∧
    (startRoute envReady 5 dbSched 1).1 = Resp.success ∧
    ((startRoute envReady 5 dbSched 1).2.messages.map (fun m => m.status)) =
      [MStatus.sent] ∧
    ((startRoute envReady 5 dbSched 1).2.campaigns.map (fun c => c.status)) =
      [CStatus.completed] ∧
    (schedulerTickProcess envReady 5 (schedulerSelect dbSched 5)
        (startRoute envReady 5 dbSched 1).2).1 = [1] :=
  ⟨by decide, rfl, by decide, by decide, by decide⟩

theorem c10_witness :
    (∃ p : String, "15@c.us" = String.mk (stripNonDigits p.toList) ++ "@c.us") ∧
    ∀ q : String, containsSubL "@c.us".toList (stripNonDigits q.toList) = false ∧
      formattedPhone q = String.mk (stripNonDigits q.toList) ++ "@c.us" :=
  c10_address_format envReady 1 0 (fun _ => false) dbOnePending "15@c.us" (by decide)

end WASender

